import Mathlib

/-!
Verification of the saxml continuous-batching decode engine against its
natural-language specification.

The development shallowly embeds the relevant parts of
  saxml/server/pax/lm/layers.py
  saxml/server/pax/lm/servable_lm_model.py
  saxml/server/servable_model.py
into Lean.  Tensors are modelled as functions from natural-number indices to
exact numbers (rationals for the integer-quantization arithmetic, reals for the
attention kernels); batch and head axes that the code treats pointwise are kept
as explicit indices.  Machine floating point is idealised by exact arithmetic,
except for rounding, which is modelled faithfully (jnp.round rounds half to
even).
-/

/-! ### Quantization: reduce_last_dim_for_quantization (layers.py, lines 39-45)

A tensor slice along the last dimension is a function v : ℕ → ℚ together with
its width d; indices at or beyond d are ignored. -/

/-- Round-half-to-even, the rounding mode of jnp.round (IEEE roundTiesToEven on
representable values, idealised over the rationals). -/
def jnpRound (x : ℚ) : ℤ :=
  let f := ⌊x⌋
  let r := x - (f : ℚ)
  if r < 1/2 then f
  else if 1/2 < r then f + 1
  else if Even f then f else f + 1

/-- Embedding of jnp.max(jnp.abs(t), axis=-1) on one last-dimension slice of
width d (jnp.max of nonnegative values agrees with a fold of max over 0). -/
def lastDimAbsMax (d : ℕ) (v : ℕ → ℚ) : ℚ :=
  ((List.range d).map fun i => |v i|).foldr max 0

/-- Embedding of the raw scale bound/127.0 computed at layers.py line 41. -/
def rawScale (d : ℕ) (v : ℕ → ℚ) : ℚ :=
  lastDimAbsMax d v / 127

/-- Embedding of the scale after the jnp.where(scale == 0.0, 1.0, scale)
substitution at layers.py line 42. -/
def adjustedScale (d : ℕ) (v : ℕ → ℚ) : ℚ :=
  if rawScale d v = 0 then 1 else rawScale d v

/-- Embedding of jnp.clip(x, -127.0, 127.0) on an already-rounded value. -/
def clip127 (z : ℤ) : ℤ := min 127 (max (-127) z)

/-- Embedding of the quantized int8 value produced by
reduce_last_dim_for_quantization: round(t / scale) clipped to [-127, 127]
(layers.py lines 43-44), elementwise on one last-dimension slice. -/
def quantizedValue (d : ℕ) (v : ℕ → ℚ) : ℕ → ℤ :=
  fun i => clip127 (jnpRound (v i / adjustedScale d v))

/-- Embedding of reduce_last_dim_for_quantization on one last-dimension slice:
the pair of the int8 tensor and the kept-dims scale. -/
def reduce_last_dim_for_quantization (d : ℕ) (v : ℕ → ℚ) : (ℕ → ℤ) × ℚ :=
  (quantizedValue d v, adjustedScale d v)

/-- Embedding of the dequantization jnp.multiply(q_value, q_scale) performed by
QuantizedKVMQA.get_decode_state (layers.py lines 384-390), elementwise. -/
def dequantize (q : ℕ → ℤ) (scale : ℚ) : ℕ → ℚ :=
  fun i => (q i : ℚ) * scale

/-- Scale as the specification words it: max(|x|)/127, replaced by 1.0 exactly
when the maximum absolute value is 0. -/
def specScale (d : ℕ) (v : ℕ → ℚ) : ℚ :=
  if lastDimAbsMax d v = 0 then 1 else lastDimAbsMax d v / 127

/-! ### Quantized KV cache writes: QuantizedKVMQA (layers.py, lines 368-442)

The flax DECODE_CACHE collection is modelled as an association list from
variable names to cache entries.  A value tensor is kept with its batch and
head axes collapsed (the code treats them pointwise): an int8 tensor is a
function of the time index and the last-dimension index, a scale tensor a
function of the time index (its kept last dimension has width 1).  The
sharding annotations _shard_blh/_shard_blnh are semantically the identity.
All operations are modelled in the mutable-DECODE_CACHE configuration with
quantize_kv enabled (the quantized path of each method). -/

def CACHE_SCALE_SUFFIX : String := "_scale"

inductive CacheEntry where
  | ival : (ℕ → ℕ → ℤ) → CacheEntry
  | sval : (ℕ → ℚ) → CacheEntry

abbrev DecodeCache := List (String × CacheEntry)

/-- Embedding of get_variable(DECODE_CACHE, name): first binding wins, like a
dict lookup. -/
def getVariable : DecodeCache → String → Option CacheEntry
  | [], _ => none
  | p :: st, k => if p.1 = k then some p.2 else getVariable st k

/-- Embedding of put_variable(DECODE_CACHE, name, value): replace the binding
when the name is present, append it otherwise (dict assignment). -/
def putVariable : DecodeCache → String → CacheEntry → DecodeCache
  | [], k, e => [(k, e)]
  | p :: st, k, e => if p.1 = k then (k, e) :: st else p :: putVariable st k e

/-- Embedding of QuantizedKVMQA.update_decode_state (layers.py lines 373-382),
quantized path: quantize the incoming state along its last dimension of width d
and store the int8 tensor and its scale tensor under the paired names. -/
def update_decode_state (d : ℕ) (st : DecodeCache) (name : String)
    (state : ℕ → ℕ → ℚ) : DecodeCache :=
  putVariable
    (putVariable st name
      (CacheEntry.ival fun t i => (reduce_last_dim_for_quantization d (state t)).1 i))
    (name ++ CACHE_SCALE_SUFFIX)
    (CacheEntry.sval fun t => (reduce_last_dim_for_quantization d (state t)).2)

/-- Embedding of QuantizedKVMQA.extend_decode_state (layers.py lines 392-422),
quantized path, for a single new row at time_step: quantize the row, require
the existing int8 state and its scale (the asserts), write the row into both by
dynamic_update_slice at the time index, and store both updated tensors.  The
rank-dependent expand_dims is pre-applied: value is the one new row. -/
def extend_decode_state (d : ℕ) (st : DecodeCache) (name : String)
    (value : ℕ → ℚ) (time_step : ℕ) : Option DecodeCache :=
  match getVariable st name, getVariable st (name ++ CACHE_SCALE_SUFFIX) with
  | some (CacheEntry.ival state), some (CacheEntry.sval scale) =>
      some (putVariable
        (putVariable st name
          (CacheEntry.ival fun t i =>
            if t = time_step then (reduce_last_dim_for_quantization d value).1 i
            else state t i))
        (name ++ CACHE_SCALE_SUFFIX)
        (CacheEntry.sval fun t =>
          if t = time_step then (reduce_last_dim_for_quantization d value).2
          else scale t))
  | _, _ => none

/-- Embedding of QuantizedKVMQA.get_decode_state (layers.py lines 384-390),
quantized path: the dequantized tensor jnp.multiply(q_value, q_scale). -/
def getDequantState (st : DecodeCache) (name : String) : Option (ℕ → ℕ → ℚ) :=
  match getVariable st name, getVariable st (name ++ CACHE_SCALE_SUFFIX) with
  | some (CacheEntry.ival q), some (CacheEntry.sval s) =>
      some fun t i => (q t i : ℚ) * s t
  | _, _ => none

/-- True when CACHE_SCALE_SUFFIX occurs inside the name (the Python test
CACHE_SCALE_SUFFIX in name). -/
def hasScaleSuffix (name : String) : Bool :=
  decide (CACHE_SCALE_SUFFIX.toList <:+: name.toList)

/-- Body of one iteration of QuantizedKVMQA.transform_decode_state (layers.py
lines 424-442) for a non-scale name: read the dequantized state, transform it,
and write it back through update_decode_state (which re-quantizes and stores
the value/scale pair). -/
def transformStep (d : ℕ) (fn : (ℕ → ℕ → ℚ) → ℕ → ℕ → ℚ)
    (st : DecodeCache) (name : String) : Option DecodeCache :=
  match getDequantState st name with
  | some state => some (update_decode_state d st name (fn state))
  | none => none

/-- Embedding of QuantizedKVMQA.transform_decode_state: iterate transformStep
over every cached name that does not contain the scale suffix. -/
def transform_decode_state (d : ℕ) (fn : (ℕ → ℕ → ℚ) → ℕ → ℕ → ℚ)
    (st : DecodeCache) : Option DecodeCache :=
  ((st.map Prod.fst).filter fun n => ¬ hasScaleSuffix n).foldlM
    (transformStep d fn) st

/-- Concrete int8 tensor used to instantiate theorems about the cache. -/
def demoVal : ℕ → ℕ → ℤ := fun _ _ => 0

/-- Concrete scale tensor used to instantiate theorems about the cache. -/
def demoScale : ℕ → ℚ := fun _ => 1

/-- Concrete quantized decode cache with one key_state entry and its paired
scale entry. -/
def demoStore : DecodeCache :=
  [("key_state", CacheEntry.ival demoVal),
   ("key_state" ++ CACHE_SCALE_SUFFIX, CacheEntry.sval demoScale)]

/-! ### Attention kernels (layers.py: ChunkedMQA lines 507-591, ChunkedMHA
lines 594-728, MXUDotProductAttention lines 731-826)

Tensors are real-valued functions of natural-number indices; an index axis is
given by its width, and values beyond a width are ignored.  The helpers the
kernels inherit from praxis (external collaborators, not part of src/) are
parametrized by a configuration record: _scale_query and _cap_logits act
elementwise, py_utils.apply_mask_to_logits acts elementwise on a
(logit, mask) pair, and the softmax-axis normalization (jax.nn.softmax, or
the attention_extra_logit variant) maps the padded logits over the valid
width to probabilities.  The astype casts are identities over the reals and
the _shard_* annotations are identities. -/

structure AttnCfg where
  scaleQ : ℝ → ℝ
  capLogits : ℝ → ℝ
  applyMask : ℝ → ℝ → ℝ
  normalize : ℕ → (ℕ → ℝ) → ℕ → ℝ
  scaleLogitsByHeadDims : Bool
  zeroFullyMasked : Bool
  bigNeg : ℝ

/-- The plain softmax over a row of width L, the jax.nn.softmax instance of
the normalization parameter. -/
noncomputable def softmax (L : ℕ) (x : ℕ → ℝ) (i : ℕ) : ℝ :=
  Real.exp (x i) / ∑ k in Finset.range L, Real.exp (x k)

/-- Embedding of jnp.repeat(t, r, axis=0): entry i of the result is entry
i / r of the input. -/
def repeatBatch {α : Type} (r : ℕ) (f : ℕ → α) : ℕ → α :=
  fun i => f (i / r)

/-- The chunk count selected by the jax.lax.switch call of the chunked
kernels: the branch index is num_chunks - 1 with
num_chunks = time_step // w + 1 >= 1, and switch clamps its index into
[0, split - 1], so only the upper clamp can apply. -/
def selectedNumChunks (split w time_step : ℕ) : ℕ :=
  min (time_step / w + 1) split

open Classical in
/-- The jnp.all(atten_mask < get_large_negative_number/2, axis=-1) factor of
the zero_fully_masked post-step, as a 0/1 real. -/
noncomputable def fullyMaskedFactor (cfg : AttnCfg) (s : ℕ)
    (mask : ℕ → ℕ → ℝ) (bi : ℕ) : ℝ :=
  if ∀ si ∈ Finset.range s, mask bi si < cfg.bigNeg / 2 then 1 else 0

/-- Body of _dynamic_qkv of ChunkedMHA._dot_atten_one_step (layers.py lines
674-701) on an already-sliced key/value/mask of width L: qk_einsum
BNH,BSNH->BNS on the scaled query, the optional 1/sqrt(h) logit scaling,
_cap_logits, masking, the softmax-axis normalization, and pv_einsum
BNS,BSNH->BNH. -/
noncomputable def mhaCoreEncoded (cfg : AttnCfg) (L n h : ℕ)
    (query : ℕ → ℕ → ℕ → ℝ) (key value : ℕ → ℕ → ℕ → ℕ → ℝ)
    (mask : ℕ → ℕ → ℝ) : ℕ → ℕ → ℕ → ℝ :=
  fun bi ni hi =>
    let logits : ℕ → ℝ := fun si =>
      (∑ hj in Finset.range h, cfg.scaleQ (query bi ni hj) * key bi si ni hj) *
        (if cfg.scaleLogitsByHeadDims then 1 / Real.sqrt h else 1)
    let padded : ℕ → ℝ := fun si =>
      cfg.applyMask (cfg.capLogits (logits si)) (mask bi si)
    let probs := cfg.normalize L padded
    ∑ si in Finset.range L, probs si * value bi si ni hi

/-- Body of _dynamic_qkv of ChunkedMQA._dot_atten_one_step_from_qkv
(layers.py lines 549-573) on an already-sliced key/value/mask of width L:
qk_einsum BNH,BSH->BNS on the scaled query, _cap_logits, masking, the
softmax-axis normalization, and pv_einsum BNS,BSH->BNH. -/
noncomputable def mqaCoreEncoded (cfg : AttnCfg) (L n h : ℕ)
    (query : ℕ → ℕ → ℕ → ℝ) (key value : ℕ → ℕ → ℕ → ℝ)
    (mask : ℕ → ℕ → ℝ) : ℕ → ℕ → ℕ → ℝ :=
  fun bi ni hi =>
    let logits : ℕ → ℝ := fun si =>
      ∑ hj in Finset.range h, cfg.scaleQ (query bi ni hj) * key bi si hj
    let padded : ℕ → ℝ := fun si =>
      cfg.applyMask (cfg.capLogits (logits si)) (mask bi si)
    let probs := cfg.normalize L padded
    ∑ si in Finset.range L, probs si * value bi si hi

/-- The chunked path of ChunkedMHA._dot_atten_one_step after the batch
dispatch (layers.py lines 663-727): slice key/value/mask to
selectedNumChunks * w positions starting at chunk 0 and run the fixed-width
dot product on the slice (slicing at start 0 leaves the index functions
unchanged and only narrows the summation width), then apply the
zero_fully_masked step, whose jnp.all runs over the full unsliced mask. -/
noncomputable def chunkedMHA_path (cfg : AttnCfg) (split s n h : ℕ)
    (query : ℕ → ℕ → ℕ → ℝ) (key value : ℕ → ℕ → ℕ → ℕ → ℝ)
    (mask : ℕ → ℕ → ℝ) (time_step : ℕ) : ℕ → ℕ → ℕ → ℝ :=
  let w := s / split
  let nc := selectedNumChunks split w time_step
  let encoded := mhaCoreEncoded cfg (nc * w) n h query key value mask
  fun bi ni hi =>
    if cfg.zeroFullyMasked then
      encoded bi ni hi * (1 - fullyMaskedFactor cfg s mask bi)
    else
      encoded bi ni hi

/-- Embedding of ChunkedMHA._dot_atten_one_step on its chunked path (the
applicable configuration: chunked_one_step_attn_num_seq_split > 1 and no
relative bias; otherwise the method defers to the base-class kernel),
including the batch dispatch of lines 648-661: replicate the cached key and
value when the query batch is a proper multiple of the cache batch, raise
ValueError on any other mismatch.  The returned probs jnp.zeros((0,)) is
omitted. -/
noncomputable def ChunkedMHA_dot_atten_one_step (cfg : AttnCfg)
    (split qb kb s n h : ℕ)
    (query : ℕ → ℕ → ℕ → ℝ) (key value : ℕ → ℕ → ℕ → ℕ → ℝ)
    (mask : ℕ → ℕ → ℝ) (time_step : ℕ) :
    Except String (ℕ → ℕ → ℕ → ℝ) :=
  if qb = kb then
    Except.ok (chunkedMHA_path cfg split s n h query key value mask time_step)
  else if qb % kb ≠ 0 then
    Except.error "q batch size is not divisible by state batch size"
  else
    Except.ok (chunkedMHA_path cfg split s n h query
      (repeatBatch (qb / kb) key) (repeatBatch (qb / kb) value) mask time_step)

/-- Embedding of ChunkedMQA._dot_atten_one_step_from_qkv on its chunked path
(the applicable configuration: num_kv_heads = 1,
chunked_one_step_attn_num_seq_split > 1, no relative bias, rank-3 query;
otherwise the method defers to the base-class kernel): slice key/value/mask
to selectedNumChunks * w positions starting at chunk 0 and run the
fixed-width dot product on the slice.  The returned probs jnp.zeros((0,)) is
omitted. -/
noncomputable def ChunkedMQA_dot_atten_one_step_from_qkv (cfg : AttnCfg)
    (split s n h : ℕ)
    (query : ℕ → ℕ → ℕ → ℝ) (key value : ℕ → ℕ → ℕ → ℝ)
    (mask : ℕ → ℕ → ℝ) (time_step : ℕ) : ℕ → ℕ → ℕ → ℝ :=
  let w := s / split
  let nc := selectedNumChunks split w time_step
  mqaCoreEncoded cfg (nc * w) n h query key value mask

/-- Modelled from the spec: the standard (unchunked) one-step dot-product
attention kernel of the praxis base class DotProductAttention, which is not
part of src/ - a full dot product over the given cache width, masked
positions pushed to ~0 probability by the mask before the softmax, with the
zero_fully_masked post-step.  Restricting the standard kernel to a valid
width L means running it with width L. -/
noncomputable def standardMHA_one_step (cfg : AttnCfg) (s n h : ℕ)
    (query : ℕ → ℕ → ℕ → ℝ) (key value : ℕ → ℕ → ℕ → ℕ → ℝ)
    (mask : ℕ → ℕ → ℝ) : ℕ → ℕ → ℕ → ℝ :=
  fun bi ni hi =>
    if cfg.zeroFullyMasked then
      mhaCoreEncoded cfg s n h query key value mask bi ni hi *
        (1 - fullyMaskedFactor cfg s mask bi)
    else
      mhaCoreEncoded cfg s n h query key value mask bi ni hi

/-- Modelled from the spec: the standard (unchunked) one-step kernel of the
praxis multi-query base class, which is not part of src/ - the full-width
masked dot product, exactly the width-s instance of the shared core. -/
noncomputable def standardMQA_one_step (cfg : AttnCfg) (s n h : ℕ)
    (query : ℕ → ℕ → ℕ → ℝ) (key value : ℕ → ℕ → ℕ → ℝ)
    (mask : ℕ → ℕ → ℝ) : ℕ → ℕ → ℕ → ℝ :=
  mqaCoreEncoded cfg s n h query key value mask

/-- Body of MXUDotProductAttention._dot_atten_one_step after the batch
dispatch (layers.py lines 781-826): the query is expanded with a synthetic
axis D and repeated twice along it (both copies equal), logits BNHD,BSNH ->
BNDS, masking broadcast over D, per-D normalization, context BNDS,BSNH ->
BNDH, and only copy D = 0 is kept, then the zero_fully_masked step. -/
noncomputable def mxuEncoded (cfg : AttnCfg) (s n h : ℕ)
    (query : ℕ → ℕ → ℕ → ℝ) (key value : ℕ → ℕ → ℕ → ℕ → ℝ)
    (mask : ℕ → ℕ → ℝ) : ℕ → ℕ → ℕ → ℝ :=
  fun bi ni hi =>
    let qd : ℕ → ℕ → ℝ := fun _ hj => query bi ni hj
    let logits : ℕ → ℕ → ℝ := fun dj si =>
      (∑ hj in Finset.range h, cfg.scaleQ (qd dj hj) * key bi si ni hj) *
        (if cfg.scaleLogitsByHeadDims then 1 / Real.sqrt h else 1)
    let padded : ℕ → ℕ → ℝ := fun dj si =>
      cfg.applyMask (cfg.capLogits (logits dj si)) (mask bi si)
    let probs : ℕ → ℕ → ℝ := fun dj => cfg.normalize s (padded dj)
    let encoded : ℕ → ℝ := fun dj =>
      ∑ si in Finset.range s, probs dj si * value bi si ni hi
    if cfg.zeroFullyMasked then
      encoded 0 * (1 - fullyMaskedFactor cfg s mask bi)
    else
      encoded 0

/-- Embedding of MXUDotProductAttention._dot_atten_one_step on its
applicable path (no relative bias; otherwise the method defers to the
base-class kernel), including the batch dispatch of lines 766-779, identical
to the chunked kernel's. -/
noncomputable def MXU_dot_atten_one_step (cfg : AttnCfg) (qb kb s n h : ℕ)
    (query : ℕ → ℕ → ℕ → ℝ) (key value : ℕ → ℕ → ℕ → ℕ → ℝ)
    (mask : ℕ → ℕ → ℝ) : Except String (ℕ → ℕ → ℕ → ℝ) :=
  if qb = kb then
    Except.ok (mxuEncoded cfg s n h query key value mask)
  else if qb % kb ≠ 0 then
    Except.error "q batch size is not divisible by state batch size"
  else
    Except.ok (mxuEncoded cfg s n h query
      (repeatBatch (qb / kb) key) (repeatBatch (qb / kb) value) mask)

/-- Concrete configuration instantiating the external praxis parameters:
identity query scaling and logit cap, additive masking, plain softmax. -/
noncomputable def demoCfg : AttnCfg :=
  ⟨id, id, fun l m => l + m, softmax, false, true, -2⟩

/-- Concrete query tensor for witnesses. -/
def demoQ : ℕ → ℕ → ℕ → ℝ := fun _ _ _ => 1

/-- Concrete rank-4 key/value tensor for witnesses. -/
def demoKV4 : ℕ → ℕ → ℕ → ℕ → ℝ := fun _ _ _ _ => 1

/-- Concrete rank-3 key/value tensor for witnesses. -/
def demoKV3 : ℕ → ℕ → ℕ → ℝ := fun _ _ _ => 1

/-- Concrete attention mask for witnesses: positions at or beyond the valid
width 1 carry the large negative mask value. -/
def demoMaskC1 : ℕ → ℕ → ℝ := fun _ si => if si < 1 then 0 else -2

/-! ### Generate and the left-align flag
(servable_lm_model.py, LMDecodeMethodContinuousBatching.generate,
lines 1633-1658) -/

/-- Engine configuration fixed at construction, the fields generate reads. -/
structure GenerateConfig where
  max_decode_steps : ℤ
  input_sequence_len : ℤ

/-- Embedding of the left_align_decode_state computation in generate (lines
1642-1647): the flag starts False and is set to True exactly when the
engine-wide decode step equals max_decode_steps + input_sequence_len - 1; the
resulting flag is what generate passes to the compiled generate function. -/
def generateLeftAlignFlag (cfg : GenerateConfig) (step : ℤ) : Bool :=
  if step = cfg.max_decode_steps + cfg.input_sequence_len - 1 then true
  else false

/-! ### Multi-host input replication (servable_lm_model.py,
input_to_device_for_continuous_batching lines 1689-1747 and the _replicate
step of _pjit_device_fn_prefill lines 1506-1521)

A host tensor is a function from an abstract index space to exact values; a
global device position is a (host index, local device index) pair. -/

/-- Embedding of to_buffers: the buffer placed at local device dIdx of host
hIdx for the real input x held by the primary host.  On the primary host the
first core gets x and the other cores zeros; on secondary hosts every core
gets zeros. -/
def placedBuffer {T : Type} (primaryHost hIdx dIdx : ℕ) (x : T → ℚ) :
    T → ℚ :=
  fun ix =>
    if hIdx = primaryHost then (if dIdx = 0 then x ix else 0) else 0

/-- Embedding of the _replicate step of _pjit_device_fn_prefill: sum the
assembled global array over the leading cores axis (every host's every local
device position). -/
def replicateSum {T : Type} (numHosts numLocal primaryHost : ℕ)
    (x : T → ℚ) : T → ℚ :=
  fun ix =>
    ∑ hIdx in Finset.range numHosts, ∑ dIdx in Finset.range numLocal,
      placedBuffer primaryHost hIdx dIdx x ix

/-! ### Engine initialization (servable_lm_model.py: init_decode_cache lines
1080-1137 and init_decode_state lines 1194-1232)

A device tensor is modelled by its shape and its flattened contents. -/

structure TensorQ where
  shape : List ℕ
  data : List ℚ

/-- Embedding of jnp.zeros(shape): a zero-filled tensor of the shape. -/
def zerosTensor (shape : List ℕ) : TensorQ :=
  ⟨shape, List.replicate shape.prod 0⟩

/-- The per-layer KV state shape of init_decode_cache lines 1095-1103: 3-D
when num_kv_heads is 1, 4-D otherwise. -/
def kvStateShape (slots sql nkv hd : ℕ) : List ℕ :=
  if nkv = 1 then [slots, sql, hd] else [slots, sql, nkv, hd]

/-- The per-layer cache dict built at init_decode_cache lines 1104-1129.  The
dict literal holds zero-filled key_state and value_state; when
consolidate_rope_key_state is false, the subsequent dict.update uses the same
x_layers_i key and therefore replaces the whole per-layer entry with the one
holding only the zero-filled key_post_rotary_pos_emb. -/
def initLayerKvCache (consolidate : Bool) (shape : List ℕ) :
    List (String × TensorQ) :=
  if consolidate then
    [("key_state", zerosTensor shape), ("value_state", zerosTensor shape)]
  else
    [("key_post_rotary_pos_emb", zerosTensor shape)]

/-- Embedding of init_decode_cache: one per-layer cache record per layer,
every tensor zero-filled with sequence dimension
input_sequence_len + max_decode_steps. -/
def init_decode_cache (numLayers slots inLen maxSteps nkv hd : ℕ)
    (consolidate : Bool) : List (List (String × TensorQ)) :=
  (List.range numLayers).map fun _ =>
    initLayerKvCache consolidate (kvStateShape slots (inLen + maxSteps) nkv hd)

/-- The decode-state struct of arrays built by init_decode_state, fields in
source order. -/
structure DecodeState where
  start_step : List ℤ
  step : List ℤ
  per_sample_steps : List ℤ
  temperature : List ℚ
  per_example_max_decode_steps : List ℤ
  per_example_top_p : List ℚ
  per_example_top_k : List ℤ
  done : List Bool
  has_eos : List Bool
  decode_lengths : List ℤ
  prefix_lengths : List ℤ
  segment_pos : List ℤ
  output_ids : List ℤ
  logprobs : List ℚ

/-- Embedding of init_decode_state (lines 1194-1232): jnp.zeros/jnp.ones of
shape num_cache_slots become replicated lists; step and start_step are the
shape-[1] array holding input_sequence_len. -/
def init_decode_state (numSlots inLen maxSteps : ℕ) : DecodeState :=
  ⟨[(inLen : ℤ)],
   [(inLen : ℤ)],
   List.replicate numSlots (inLen : ℤ),
   List.replicate numSlots 0,
   List.replicate numSlots (maxSteps : ℤ),
   List.replicate numSlots 1,
   List.replicate numSlots 1,
   List.replicate numSlots true,
   List.replicate numSlots false,
   List.replicate numSlots 0,
   List.replicate numSlots 0,
   List.replicate numSlots 0,
   List.replicate numSlots 0,
   List.replicate numSlots 0⟩

/-! ### Batch-size bucketing (servable_model.py: ServableMethod) -/

/-- Embedding of the batch-size setup of ServableMethod.__init__ (lines
32-39): the configured batch sizes, sorted ascending. -/
def sortedBatchSizes (l : List ℕ) : List ℕ :=
  l.insertionSort (· ≤ ·)

/-- Embedding of ServableMethod.get_padded_batch_size (lines 136-142): the
first configured size at least the unpadded batch size; a ValueError when
every configured size is smaller. -/
def get_padded_batch_size (sizes : List ℕ) (b : ℕ) : Except String ℕ :=
  match sizes.find? fun bs => decide (b ≤ bs) with
  | some bs => Except.ok bs
  | none => Except.error "Batch size larger than maximum"

/-- Embedding of the batch-size handling of ServableMethod.compute (lines
144-159): reject an unpadded batch above the largest configured size (the
batch_size property: last sorted size, 1 when none are configured), otherwise
run the device computation at get_padded_batch_size of the unpadded size. -/
def computePaddedBatchSize (l : List ℕ) (b : ℕ) : Except String ℕ :=
  let sizes := sortedBatchSizes l
  let batch_size := match sizes.getLast? with
    | some m => m
    | none => 1
  if b > batch_size then
    Except.error "Inputs to compute had a larger batch size than configured"
  else
    get_padded_batch_size sizes b


/-! Basic facts about the rounding and the maximum. -/

theorem jnpRound_sub_le (x : ℚ) : |(jnpRound x : ℚ) - x| ≤ 1/2 := by
  unfold jnpRound
  have hf : (⌊x⌋ : ℚ) ≤ x := Int.floor_le x
  have hf' : x - (⌊x⌋ : ℚ) < 1 := by
    have := Int.lt_floor_add_one x
    linarith
  by_cases h1 : x - (⌊x⌋ : ℚ) < 1/2
  · simp only [h1, if_true]
    rw [abs_sub_comm, abs_of_nonneg (by linarith)]
    linarith
  · simp only [h1, if_false]
    by_cases h2 : 1/2 < x - (⌊x⌋ : ℚ)
    · simp only [h2, if_true]
      rw [abs_of_nonneg (by push_cast; linarith)]
      push_cast
      linarith
    · have heq : x - (⌊x⌋ : ℚ) = 1/2 := le_antisymm (not_lt.mp h2) (not_lt.mp h1)
      simp only [h2, if_false]
      by_cases h3 : Even ⌊x⌋
      · simp only [h3, if_true]
        rw [abs_sub_comm, abs_of_nonneg (by linarith)]
        linarith
      · simp only [h3, if_false]
        rw [abs_of_nonneg (by push_cast; linarith)]
        push_cast
        linarith

theorem floor_le_jnpRound (x : ℚ) : ⌊x⌋ ≤ jnpRound x := by
  unfold jnpRound
  dsimp only
  split
  · exact le_refl _
  · split
    · omega
    · split
      · exact le_refl _
      · omega

theorem jnpRound_le_floor_add_one (x : ℚ) : jnpRound x ≤ ⌊x⌋ + 1 := by
  unfold jnpRound
  dsimp only
  split
  · omega
  · split
    · exact le_refl _
    · split
      · omega
      · exact le_refl _

theorem jnpRound_le_of_le (x : ℚ) (n : ℤ) (h : x ≤ n) : jnpRound x ≤ n := by
  have hf : ⌊x⌋ ≤ n := by
    have := Int.floor_mono h
    rwa [Int.floor_intCast] at this
  rcases lt_or_eq_of_le hf with hlt | heq
  · have := jnpRound_le_floor_add_one x
    omega
  · have h1 : (n : ℚ) ≤ x := by
      rw [← heq]
      exact Int.floor_le x
    have h2 : x = (n : ℚ) := le_antisymm h h1
    have hxn : x - (⌊x⌋ : ℚ) < 1/2 := by
      rw [heq, h2]
      norm_num
    unfold jnpRound
    simp only [hxn, if_true]
    omega

theorem le_jnpRound_of_le (x : ℚ) (n : ℤ) (h : (n : ℚ) ≤ x) : n ≤ jnpRound x := by
  have : n ≤ ⌊x⌋ := Int.le_floor.mpr h
  have := floor_le_jnpRound x
  omega

theorem le_foldr_max (l : List ℚ) (x : ℚ) (hx : x ∈ l) : x ≤ l.foldr max 0 := by
  induction l with
  | nil => simp at hx
  | cons a l ih =>
      rcases List.mem_cons.mp hx with h | h
      · subst h
        exact le_max_left _ _
      · exact le_trans (ih h) (le_max_right _ _)

theorem foldr_max_nonneg (l : List ℚ) : 0 ≤ l.foldr max 0 := by
  induction l with
  | nil => simp
  | cons a l ih =>
      simp only [List.foldr_cons]
      exact le_trans ih (le_max_right _ _)

theorem le_lastDimAbsMax (d : ℕ) (v : ℕ → ℚ) (i : ℕ) (hi : i < d) :
    |v i| ≤ lastDimAbsMax d v :=
  le_foldr_max _ _ (List.mem_map.mpr ⟨i, List.mem_range.mpr hi, rfl⟩)

theorem lastDimAbsMax_nonneg (d : ℕ) (v : ℕ → ℚ) : 0 ≤ lastDimAbsMax d v :=
  foldr_max_nonneg _

theorem adjustedScale_pos (d : ℕ) (v : ℕ → ℚ) : 0 < adjustedScale d v := by
  unfold adjustedScale
  split
  · norm_num
  · rename_i h
    have h0 := lastDimAbsMax_nonneg d v
    unfold rawScale at h ⊢
    rcases lt_or_eq_of_le h0 with hlt | heq
    · positivity
    · exact absurd (by rw [← heq]; norm_num) h

theorem quantizedValue_abs_le (d : ℕ) (v : ℕ → ℚ) (i : ℕ) (hi : i < d) :
    quantizedValue d v i = jnpRound (v i / adjustedScale d v) ∧
      |(quantizedValue d v i : ℚ)| ≤ 127 := by
  have hs := adjustedScale_pos d v
  have hb : |v i| ≤ lastDimAbsMax d v := le_lastDimAbsMax d v i hi
  have hdiv : |v i / adjustedScale d v| ≤ 127 := by
    rw [abs_div, abs_of_pos hs, div_le_iff₀ hs]
    unfold adjustedScale
    split
    · rename_i h
      unfold rawScale at h
      have : lastDimAbsMax d v = 0 := by
        field_simp at h
        exact h
      calc |v i| ≤ lastDimAbsMax d v := hb
        _ = 0 := this
        _ ≤ 127 * 1 := by norm_num
    · unfold rawScale
      calc |v i| ≤ lastDimAbsMax d v := hb
        _ = 127 * (lastDimAbsMax d v / 127) := by ring
  rw [abs_le] at hdiv
  have hup : jnpRound (v i / adjustedScale d v) ≤ 127 :=
    jnpRound_le_of_le _ 127 (by exact_mod_cast hdiv.2)
  have hlo : (-127 : ℤ) ≤ jnpRound (v i / adjustedScale d v) :=
    le_jnpRound_of_le _ (-127) (by push_cast; exact hdiv.1)
  constructor
  · unfold quantizedValue clip127
    omega
  · unfold quantizedValue clip127
    rw [abs_le]
    constructor
    · have : (-127 : ℤ) ≤ min 127 (max (-127) (jnpRound (v i / adjustedScale d v))) := by
        omega
      exact_mod_cast this
    · have : min 127 (max (-127) (jnpRound (v i / adjustedScale d v))) ≤ (127 : ℤ) := by
        omega
      exact_mod_cast this

theorem adjustedScale_eq_specScale (d : ℕ) (v : ℕ → ℚ) :
    adjustedScale d v = specScale d v := by
  unfold adjustedScale specScale rawScale
  by_cases h : lastDimAbsMax d v = 0
  · simp [h]
  · have : ¬ lastDimAbsMax d v / 127 = 0 := by
      intro hc
      apply h
      field_simp at hc
      exact hc
    simp [h, this]

/-- C2: dequantizing the output of reduce_last_dim_for_quantization, the way
get_decode_state does (int8 value times stored scale), differs from the
original tensor by at most scale/2 in every element of the slice, where the
scale is max(|t|)/127, or 1.0 when that maximum is exactly 0. -/
theorem quantization_round_trip (d : ℕ) (v : ℕ → ℚ) (i : ℕ) (hi : i < d) :
    |dequantize (reduce_last_dim_for_quantization d v).1
        (reduce_last_dim_for_quantization d v).2 i - v i| ≤
      specScale d v / 2 := by
  have hs := adjustedScale_pos d v
  have hspec := adjustedScale_eq_specScale d v
  have hq := (quantizedValue_abs_le d v i hi).1
  unfold dequantize reduce_last_dim_for_quantization
  dsimp only
  rw [hq, ← hspec]
  have hr := jnpRound_sub_le (v i / adjustedScale d v)
  have key : (jnpRound (v i / adjustedScale d v) : ℚ) * adjustedScale d v - v i =
      ((jnpRound (v i / adjustedScale d v) : ℚ) - v i / adjustedScale d v) *
        adjustedScale d v := by
    field_simp
  rw [key, abs_mul, abs_of_pos hs]
  calc |(jnpRound (v i / adjustedScale d v) : ℚ) - v i / adjustedScale d v| *
        adjustedScale d v
      ≤ 1/2 * adjustedScale d v := by
        apply mul_le_mul_of_nonneg_right hr (le_of_lt hs)
    _ = adjustedScale d v / 2 := by ring

/-- Witness for C2 at the concrete slice v = (3, -5, 0, ...) of width 2. -/
theorem quantization_round_trip_witness :
    (1 : ℕ) < 2 ∧
      |dequantize
          (reduce_last_dim_for_quantization 2
            (fun i => if i = 0 then 3 else if i = 1 then -5 else 0)).1
          (reduce_last_dim_for_quantization 2
            (fun i => if i = 0 then 3 else if i = 1 then -5 else 0)).2 1 -
        (fun i : ℕ => if i = 0 then (3 : ℚ) else if i = 1 then -5 else 0) 1| ≤
      specScale 2 (fun i => if i = 0 then 3 else if i = 1 then -5 else 0) / 2 :=
  ⟨by norm_num,
   quantization_round_trip 2
     (fun i => if i = 0 then 3 else if i = 1 then -5 else 0) 1 (by norm_num)⟩

/-- C3: reduce_last_dim_for_quantization returns, for each last-dimension
slice, a scale equal to max(|x|)/127 with the scale replaced by 1.0 exactly
when the maximum absolute value is 0, and an int8 tensor equal to
round(x/scale) clipped to [-127, 127]; when the dynamic range is zero the
function substitutes the unit scale and quantizes every element to 0 — the
case is handled locally, the function is total and never signals an error. -/
theorem reduce_last_dim_quantization_correct (d : ℕ) (v : ℕ → ℚ) (i : ℕ)
    (hi : i < d) :
    (reduce_last_dim_for_quantization d v).2 = specScale d v ∧
    (reduce_last_dim_for_quantization d v).1 i =
      clip127 (jnpRound (v i / specScale d v)) ∧
    (lastDimAbsMax d v = 0 →
      (reduce_last_dim_for_quantization d v).2 = 1 ∧
      (reduce_last_dim_for_quantization d v).1 i = 0) := by
  have hspec := adjustedScale_eq_specScale d v
  refine ⟨hspec, ?_, ?_⟩
  · unfold reduce_last_dim_for_quantization quantizedValue
    rw [hspec]
  · intro h0
    have hvi : v i = 0 := by
      have h1 := le_lastDimAbsMax d v i hi
      have h2 := abs_nonneg (v i)
      rw [h0] at h1
      have : |v i| = 0 := le_antisymm h1 h2
      exact abs_eq_zero.mp this
    constructor
    · unfold reduce_last_dim_for_quantization
      rw [hspec]
      unfold specScale
      simp [h0]
    · unfold reduce_last_dim_for_quantization quantizedValue
      dsimp only
      rw [hvi]
      norm_num
      have : jnpRound 0 = 0 := by
        unfold jnpRound
        norm_num
      rw [this]
      unfold clip127
      norm_num

/-- Witness for C3 at the all-zero slice of width 3 (the zero-dynamic-range
case) evaluated at element 1. -/
theorem reduce_last_dim_quantization_correct_witness :
    (1 : ℕ) < 3 ∧
      ((reduce_last_dim_for_quantization 3 (fun _ => 0)).2 =
          specScale 3 (fun _ => 0) ∧
        (reduce_last_dim_for_quantization 3 (fun _ => 0)).1 1 =
          clip127 (jnpRound ((fun _ : ℕ => (0 : ℚ)) 1 / specScale 3 fun _ => 0)) ∧
        (lastDimAbsMax 3 (fun _ => 0) = 0 →
          (reduce_last_dim_for_quantization 3 (fun _ => 0)).2 = 1 ∧
          (reduce_last_dim_for_quantization 3 (fun _ => 0)).1 1 = 0)) :=
  ⟨by norm_num,
   reduce_last_dim_quantization_correct 3 (fun _ => 0) 1 (by norm_num)⟩

/-! Lookup/update lemmas for the association-list decode cache. -/

theorem getVariable_put_same (st : DecodeCache) (k : String) (e : CacheEntry) :
    getVariable (putVariable st k e) k = some e := by
  induction st with
  | nil => simp [putVariable, getVariable]
  | cons p st ih =>
      by_cases hp : p.1 = k
      · simp [putVariable, getVariable, hp]
      · simp [putVariable, getVariable, hp, ih]

theorem getVariable_put_other (st : DecodeCache) (k : String) (e : CacheEntry)
    (k' : String) (hk : k' ≠ k) :
    getVariable (putVariable st k e) k' = getVariable st k' := by
  induction st with
  | nil =>
      simp only [putVariable, getVariable]
      rw [if_neg (fun h => hk h.symm)]
  | cons p st ih =>
      by_cases hp : p.1 = k
      · have h1 : ¬ (k = k') := fun h => hk h.symm
        have h2 : ¬ (p.1 = k') := by rw [hp]; exact h1
        simp [putVariable, getVariable, hp, h1, h2]
      · by_cases hq : p.1 = k'
        · simp [putVariable, getVariable, hp, hq, hk]
        · simp [putVariable, getVariable, hp, hq, ih]

theorem ne_append_scale_suffix (name : String) :
    name ≠ name ++ CACHE_SCALE_SUFFIX := by
  intro h
  have hl := congrArg String.length h
  rw [String.length_append] at hl
  have : CACHE_SCALE_SUFFIX.length = 6 := by decide
  omega

/-- C6: under quantize_kv, every operation that writes a quantized KV cache
entry writes the int8 value tensor and its paired scale tensor together in the
same operation.  update_decode_state stores the quantized tensor and the scale
recomputed from the same input state, touching nothing else;
extend_decode_state updates the value row and its recomputed scale at the same
time step, touching nothing else; and every write transform_decode_state
performs goes through update_decode_state on the transformed dequantized
state, so no code path stores a value without its recomputed scale or updates
a scale independently of its value. -/
theorem quantized_kv_scale_atomic :
    (∀ (d : ℕ) (st : DecodeCache) (name : String) (state : ℕ → ℕ → ℚ),
      getVariable (update_decode_state d st name state) name =
        some (CacheEntry.ival fun t i =>
          (reduce_last_dim_for_quantization d (state t)).1 i) ∧
      getVariable (update_decode_state d st name state)
          (name ++ CACHE_SCALE_SUFFIX) =
        some (CacheEntry.sval fun t =>
          (reduce_last_dim_for_quantization d (state t)).2) ∧
      ∀ k, k ≠ name → k ≠ name ++ CACHE_SCALE_SUFFIX →
        getVariable (update_decode_state d st name state) k = getVariable st k) ∧
    (∀ (d : ℕ) (st : DecodeCache) (name : String) (value : ℕ → ℚ)
        (time_step : ℕ) (st0 : ℕ → ℕ → ℤ) (sc0 : ℕ → ℚ),
      getVariable st name = some (CacheEntry.ival st0) →
      getVariable st (name ++ CACHE_SCALE_SUFFIX) = some (CacheEntry.sval sc0) →
      ∃ st2, extend_decode_state d st name value time_step = some st2 ∧
        getVariable st2 name = some (CacheEntry.ival fun t i =>
          if t = time_step then (reduce_last_dim_for_quantization d value).1 i
          else st0 t i) ∧
        getVariable st2 (name ++ CACHE_SCALE_SUFFIX) =
          some (CacheEntry.sval fun t =>
            if t = time_step then (reduce_last_dim_for_quantization d value).2
            else sc0 t) ∧
        ∀ k, k ≠ name → k ≠ name ++ CACHE_SCALE_SUFFIX →
          getVariable st2 k = getVariable st k) ∧
    (∀ (d : ℕ) (fn : (ℕ → ℕ → ℚ) → ℕ → ℕ → ℚ) (st : DecodeCache)
        (name : String) (st2 : DecodeCache),
      transformStep d fn st name = some st2 →
      ∃ state, getDequantState st name = some state ∧
        st2 = update_decode_state d st name (fn state)) := by
  refine ⟨?_, ?_, ?_⟩
  · intro d st name state
    refine ⟨?_, ?_, ?_⟩
    · unfold update_decode_state
      rw [getVariable_put_other _ _ _ _ (ne_append_scale_suffix name)]
      exact getVariable_put_same _ _ _
    · exact getVariable_put_same _ _ _
    · intro k hk1 hk2
      unfold update_decode_state
      rw [getVariable_put_other _ _ _ _ hk2, getVariable_put_other _ _ _ _ hk1]
  · intro d st name value time_step st0 sc0 h1 h2
    refine ⟨putVariable
        (putVariable st name
          (CacheEntry.ival fun t i =>
            if t = time_step then (reduce_last_dim_for_quantization d value).1 i
            else st0 t i))
        (name ++ CACHE_SCALE_SUFFIX)
        (CacheEntry.sval fun t =>
          if t = time_step then (reduce_last_dim_for_quantization d value).2
          else sc0 t), ?_, ?_, ?_, ?_⟩
    · unfold extend_decode_state
      rw [h1, h2]
    · rw [getVariable_put_other _ _ _ _ (ne_append_scale_suffix name)]
      exact getVariable_put_same _ _ _
    · exact getVariable_put_same _ _ _
    · intro k hk1 hk2
      rw [getVariable_put_other _ _ _ _ hk2, getVariable_put_other _ _ _ _ hk1]
  · intro d fn st name st2 h
    unfold transformStep at h
    cases hg : getDequantState st name with
    | none =>
        rw [hg] at h
        exact Option.noConfusion h
    | some state =>
        rw [hg] at h
        exact ⟨state, rfl, (Option.some.inj h).symm⟩

/-- Witness for C6: the three parts of quantized_kv_scale_atomic instantiated
on a concrete two-entry cache. -/
theorem quantized_kv_scale_atomic_witness :
    (getVariable (update_decode_state 1 [] "key_state" fun _ _ => 0) "other" =
      getVariable [] "other") ∧
    (∃ st2, extend_decode_state 1 demoStore "key_state" (fun _ => 3) 2 = some st2 ∧
      getVariable st2 "key_state" = some (CacheEntry.ival fun t i =>
        if t = 2 then (reduce_last_dim_for_quantization 1 fun _ => 3).1 i
        else demoVal t i) ∧
      getVariable st2 ("key_state" ++ CACHE_SCALE_SUFFIX) =
        some (CacheEntry.sval fun t =>
          if t = 2 then (reduce_last_dim_for_quantization 1 fun _ => 3).2
          else demoScale t) ∧
      ∀ k, k ≠ "key_state" → k ≠ "key_state" ++ CACHE_SCALE_SUFFIX →
        getVariable st2 k = getVariable demoStore k) ∧
    (∃ state, getDequantState demoStore "key_state" = some state ∧
      update_decode_state 1 demoStore "key_state"
          (id fun t i => ((demoVal t i : ℤ) : ℚ) * demoScale t) =
        update_decode_state 1 demoStore "key_state" (id state)) :=
  ⟨(quantized_kv_scale_atomic.1 1 [] "key_state" (fun _ _ => 0)).2.2 "other"
      (by decide) (by decide),
   quantized_kv_scale_atomic.2.1 1 demoStore "key_state" (fun _ => 3) 2
      demoVal demoScale rfl rfl,
   quantized_kv_scale_atomic.2.2 1 id demoStore "key_state"
      (update_decode_state 1 demoStore "key_state"
        (id fun t i => ((demoVal t i : ℤ) : ℚ) * demoScale t)) rfl⟩

/-! Theorems about the chunked kernels. -/

/-- C4: the switch over the precompiled fixed-width kernels selects the one
covering time_step // w + 1 chunks, which equals the ceiling of the valid
width (time_step + 1) over the chunk width w; the selected kernel covers
position time_step and stays within the allocated cache width. -/
theorem chunked_kernel_selection (split w s time_step : ℕ) (hw : 0 < w)
    (hs : s = split * w) (hts : time_step < s) :
    selectedNumChunks split w time_step = time_step / w + 1 ∧
    selectedNumChunks split w time_step = (time_step + 1 + (w - 1)) / w ∧
    time_step < selectedNumChunks split w time_step * w ∧
    selectedNumChunks split w time_step * w ≤ s := by
  have hts' : time_step < split * w := by rw [← hs]; exact hts
  have hlt : time_step / w < split := by
    rw [Nat.div_lt_iff_lt_mul hw]
    exact hts'
  have h1 : selectedNumChunks split w time_step = time_step / w + 1 := by
    unfold selectedNumChunks
    omega
  refine ⟨h1, ?_, ?_, ?_⟩
  · rw [h1]
    have hplus : time_step + 1 + (w - 1) = time_step + w := by omega
    rw [hplus, Nat.add_div_right _ hw]
  · rw [h1]
    have h2 := Nat.div_add_mod time_step w
    have h3 := Nat.mod_lt time_step hw
    have h4 : (time_step / w + 1) * w = w * (time_step / w) + w := by ring
    linarith
  · rw [h1, hs]
    exact Nat.mul_le_mul_right w (by omega)

/-- Witness for C4 at the concrete scenario split = 4, s = 16, w = 4,
time_step = 7: the 2-chunk kernel covering positions 0 through 7 is
selected. -/
theorem chunked_kernel_selection_witness :
    (selectedNumChunks 4 4 7 = 7 / 4 + 1 ∧
      selectedNumChunks 4 4 7 = (7 + 1 + (4 - 1)) / 4 ∧
      7 < selectedNumChunks 4 4 7 * 4 ∧
      selectedNumChunks 4 4 7 * 4 ≤ 16) ∧
    selectedNumChunks 4 4 7 = 2 ∧ selectedNumChunks 4 4 7 * 4 = 8 :=
  ⟨chunked_kernel_selection 4 4 16 7 (by norm_num) (by norm_num) (by norm_num),
   by decide, by decide⟩

/-- C7: in one-step attention (chunked and wide-query variants), with a query
batch differing from the cached KV batch, when the query batch is an integer
multiple of the cache batch, both kernels replicate the cached key and value
qb / kb times along the batch axis and the computation proceeds; on any other
mismatch both raise the divisibility ValueError. -/
theorem one_step_batch_mismatch (cfg : AttnCfg) (split qb kb s n h time_step : ℕ)
    (query : ℕ → ℕ → ℕ → ℝ) (key value : ℕ → ℕ → ℕ → ℕ → ℝ)
    (mask : ℕ → ℕ → ℝ) (hne : qb ≠ kb) (hkb : 0 < kb) :
    (kb ∣ qb →
      ChunkedMHA_dot_atten_one_step cfg split qb kb s n h
          query key value mask time_step =
        Except.ok (chunkedMHA_path cfg split s n h query
          (repeatBatch (qb / kb) key) (repeatBatch (qb / kb) value)
          mask time_step) ∧
      MXU_dot_atten_one_step cfg qb kb s n h query key value mask =
        Except.ok (mxuEncoded cfg s n h query
          (repeatBatch (qb / kb) key) (repeatBatch (qb / kb) value) mask)) ∧
    (¬ kb ∣ qb →
      ChunkedMHA_dot_atten_one_step cfg split qb kb s n h
          query key value mask time_step =
        Except.error "q batch size is not divisible by state batch size" ∧
      MXU_dot_atten_one_step cfg qb kb s n h query key value mask =
        Except.error "q batch size is not divisible by state batch size") := by
  constructor
  · intro hdvd
    have hmod : qb % kb = 0 := Nat.dvd_iff_mod_eq_zero.mp hdvd
    constructor
    · unfold ChunkedMHA_dot_atten_one_step
      rw [if_neg hne, if_neg (by omega)]
    · unfold MXU_dot_atten_one_step
      rw [if_neg hne, if_neg (by omega)]
  · intro hndvd
    have hmod : qb % kb ≠ 0 := by
      intro hc
      exact hndvd (Nat.dvd_of_mod_eq_zero hc)
    constructor
    · unfold ChunkedMHA_dot_atten_one_step
      rw [if_neg hne, if_pos hmod]
    · unfold MXU_dot_atten_one_step
      rw [if_neg hne, if_pos hmod]

/-- Witness for C7: the replication branch at query batch 4 against cache
batch 2, and the error branch at query batch 3 against cache batch 2. -/
theorem one_step_batch_mismatch_witness :
    (ChunkedMHA_dot_atten_one_step demoCfg 2 4 2 2 1 1
        demoQ demoKV4 demoKV4 demoMaskC1 0 =
      Except.ok (chunkedMHA_path demoCfg 2 2 1 1 demoQ
        (repeatBatch (4 / 2) demoKV4) (repeatBatch (4 / 2) demoKV4)
        demoMaskC1 0) ∧
      MXU_dot_atten_one_step demoCfg 4 2 2 1 1 demoQ demoKV4 demoKV4 demoMaskC1 =
        Except.ok (mxuEncoded demoCfg 2 1 1 demoQ
          (repeatBatch (4 / 2) demoKV4) (repeatBatch (4 / 2) demoKV4)
          demoMaskC1)) ∧
    (ChunkedMHA_dot_atten_one_step demoCfg 2 3 2 2 1 1
        demoQ demoKV4 demoKV4 demoMaskC1 0 =
      Except.error "q batch size is not divisible by state batch size" ∧
      MXU_dot_atten_one_step demoCfg 3 2 2 1 1 demoQ demoKV4 demoKV4 demoMaskC1 =
        Except.error "q batch size is not divisible by state batch size") :=
  ⟨(one_step_batch_mismatch demoCfg 2 4 2 2 1 1 0 demoQ demoKV4 demoKV4
      demoMaskC1 (by norm_num) (by norm_num)).1 (by norm_num),
   (one_step_batch_mismatch demoCfg 2 3 2 2 1 1 0 demoQ demoKV4 demoKV4
      demoMaskC1 (by norm_num) (by norm_num)).2 (by norm_num)⟩

/-- C1: where the chunked one-step attention path applies (single-step query,
chunked_one_step_attn_num_seq_split > 1 is implicit in the modelled path, no
relative bias, matching batches), and for every valid (time_step, chunk count)
combination with the mask masking the positions beyond the covered width, the
chunked kernel's output context equals the standard (unchunked) dot-product
attention kernel run with the same query, cache and mask restricted to the
same valid width (time_step / w + 1 chunks of width w), for both the MHA
variant and the MQA variant. -/
theorem chunked_attention_equals_restricted_standard
    (cfg : AttnCfg) (split w s n h time_step b : ℕ)
    (query : ℕ → ℕ → ℕ → ℝ) (key value : ℕ → ℕ → ℕ → ℕ → ℝ)
    (mask : ℕ → ℕ → ℝ)
    (query2 : ℕ → ℕ → ℕ → ℝ) (key2 value2 : ℕ → ℕ → ℕ → ℝ)
    (mask2 : ℕ → ℕ → ℝ)
    (hw : 0 < w) (hs : s = split * w) (hts : time_step < s)
    (hpad : ∀ bi si, (time_step / w + 1) * w ≤ si → si < s →
      mask bi si < cfg.bigNeg / 2) :
    ChunkedMHA_dot_atten_one_step cfg split b b s n h
        query key value mask time_step =
      Except.ok (standardMHA_one_step cfg ((time_step / w + 1) * w) n h
        query key value mask) ∧
    ChunkedMQA_dot_atten_one_step_from_qkv cfg split s n h
        query2 key2 value2 mask2 time_step =
      standardMQA_one_step cfg ((time_step / w + 1) * w) n h
        query2 key2 value2 mask2 := by
  have hsplit : 0 < split := by
    rcases Nat.eq_zero_or_pos split with h0 | h0
    · subst h0
      simp at hs
      omega
    · exact h0
  have hsw : s / split = w := by
    rw [hs, Nat.mul_div_cancel_left _ hsplit]
  have hts' : time_step < split * w := by rw [← hs]; exact hts
  have hlt : time_step / w < split := by
    rw [Nat.div_lt_iff_lt_mul hw]
    exact hts'
  have hnc : selectedNumChunks split w time_step = time_step / w + 1 := by
    unfold selectedNumChunks
    omega
  have hL : (time_step / w + 1) * w ≤ s := by
    rw [hs]
    exact Nat.mul_le_mul_right w (by omega)
  have hfmf : ∀ bi, fullyMaskedFactor cfg s mask bi =
      fullyMaskedFactor cfg ((time_step / w + 1) * w) mask bi := by
    intro bi
    have hiff : (∀ si ∈ Finset.range s, mask bi si < cfg.bigNeg / 2) ↔
        (∀ si ∈ Finset.range ((time_step / w + 1) * w),
          mask bi si < cfg.bigNeg / 2) := by
      constructor
      · intro hall si hsi
        exact hall si (Finset.mem_range.mpr
          (lt_of_lt_of_le (Finset.mem_range.mp hsi) hL))
      · intro hall si hsi
        rcases lt_or_ge si ((time_step / w + 1) * w) with hlt2 | hge
        · exact hall si (Finset.mem_range.mpr hlt2)
        · exact hpad bi si hge (Finset.mem_range.mp hsi)
    unfold fullyMaskedFactor
    by_cases hc : ∀ si ∈ Finset.range s, mask bi si < cfg.bigNeg / 2
    · rw [if_pos hc, if_pos (hiff.mp hc)]
    · rw [if_neg hc, if_neg (fun hc2 => hc (hiff.mpr hc2))]
  constructor
  · unfold ChunkedMHA_dot_atten_one_step
    rw [if_pos rfl]
    congr 1
    simp only [chunkedMHA_path, standardMHA_one_step, hsw, hnc]
    funext bi ni hi
    by_cases hz : cfg.zeroFullyMasked
    · simp only [standardMHA_one_step, hz, if_true]
      rw [hfmf bi]
    · simp only [standardMHA_one_step, hz, Bool.false_eq_true, if_false]
  · simp only [ChunkedMQA_dot_atten_one_step_from_qkv, standardMQA_one_step,
      hsw, hnc]

/-- Witness for C1 at split = 2, w = 1, s = 2, time_step = 0: the 1-chunk
kernel against the standard kernel restricted to width 1. -/
theorem chunked_attention_equals_restricted_standard_witness :
    ChunkedMHA_dot_atten_one_step demoCfg 2 1 1 2 1 1
        demoQ demoKV4 demoKV4 demoMaskC1 0 =
      Except.ok (standardMHA_one_step demoCfg ((0 / 1 + 1) * 1) 1 1
        demoQ demoKV4 demoKV4 demoMaskC1) ∧
    ChunkedMQA_dot_atten_one_step_from_qkv demoCfg 2 2 1 1
        demoQ demoKV3 demoKV3 demoMaskC1 0 =
      standardMQA_one_step demoCfg ((0 / 1 + 1) * 1) 1 1
        demoQ demoKV3 demoKV3 demoMaskC1 :=
  chunked_attention_equals_restricted_standard demoCfg 2 1 2 1 1 0 1
    demoQ demoKV4 demoKV4 demoMaskC1 demoQ demoKV3 demoKV3 demoMaskC1
    (by norm_num) (by norm_num) (by norm_num)
    (by
      intro bi si h1 h2
      have hsi : si = 1 := by omega
      subst hsi
      norm_num [demoMaskC1, demoCfg])

/-- C5: on every generate call, the left-align flag passed to the compiled
generate function is True if and only if the engine-wide step equals
max_decode_steps + input_sequence_len - 1 at the time of the call, and at
every smaller step value the flag is False. -/
theorem left_align_flag_iff (cfg : GenerateConfig) (step : ℤ) :
    (generateLeftAlignFlag cfg step = true ↔
      step = cfg.max_decode_steps + cfg.input_sequence_len - 1) ∧
    (step < cfg.max_decode_steps + cfg.input_sequence_len - 1 →
      generateLeftAlignFlag cfg step = false) := by
  unfold generateLeftAlignFlag
  constructor
  · by_cases h : step = cfg.max_decode_steps + cfg.input_sequence_len - 1 <;>
      simp [h]
  · intro h
    rw [if_neg (by omega)]

/-- Witness for C5 with max_decode_steps = 4 and input_sequence_len = 8: the
flag fires at step 11 and is off at the smaller step 5. -/
theorem left_align_flag_iff_witness :
    (generateLeftAlignFlag ⟨4, 8⟩ 11 = true ↔ (11 : ℤ) = 4 + 8 - 1) ∧
    generateLeftAlignFlag ⟨4, 8⟩ 5 = false :=
  ⟨(left_align_flag_iff ⟨4, 8⟩ 11).1,
   (left_align_flag_iff ⟨4, 8⟩ 5).2 (by norm_num)⟩

/-- C8: the continuous-batching input path places the host input x at exactly
one device position - the first core of the primary host - and same-shaped
zeros at every other device position, so that the prefill wrapper's sum over
the leading cores axis reconstructs exactly x (the value every participating
device then holds). -/
theorem input_replication_reconstructs {T : Type}
    (numHosts numLocal primaryHost : ℕ) (x : T → ℚ)
    (hh : primaryHost < numHosts) (hd : 0 < numLocal) :
    (∀ ix, replicateSum numHosts numLocal primaryHost x ix = x ix) ∧
    (∀ hIdx dIdx, hIdx ≠ primaryHost ∨ dIdx ≠ 0 →
      ∀ ix, placedBuffer primaryHost hIdx dIdx x ix = 0) ∧
    (∀ ix, placedBuffer primaryHost primaryHost 0 x ix = x ix) := by
  refine ⟨?_, ?_, ?_⟩
  · intro ix
    unfold replicateSum placedBuffer
    rw [Finset.sum_eq_single primaryHost]
    · simp only [eq_self_iff_true, if_true]
      rw [Finset.sum_ite_eq' (Finset.range numLocal) 0 fun _ => x ix]
      rw [if_pos (Finset.mem_range.mpr hd)]
    · intro hIdx _ hne
      apply Finset.sum_eq_zero
      intro dIdx _
      rw [if_neg hne]
    · intro hc
      exact absurd (Finset.mem_range.mpr hh) hc
  · intro hIdx dIdx hne ix
    unfold placedBuffer
    rcases hne with hne | hne
    · rw [if_neg hne]
    · by_cases hp : hIdx = primaryHost
      · rw [if_pos hp, if_neg hne]
      · rw [if_neg hp]
  · intro ix
    unfold placedBuffer
    rw [if_pos rfl, if_pos rfl]

/-- Witness for C8 with 2 hosts of 2 local devices, primary host 0, and a
constant host tensor over the natural numbers. -/
theorem input_replication_reconstructs_witness :
    (∀ ix : ℕ, replicateSum 2 2 0 (fun _ => (5 : ℚ)) ix = (fun _ => (5 : ℚ)) ix) ∧
    (∀ hIdx dIdx, hIdx ≠ 0 ∨ dIdx ≠ 0 →
      ∀ ix : ℕ, placedBuffer 0 hIdx dIdx (fun _ => (5 : ℚ)) ix = 0) ∧
    (∀ ix : ℕ, placedBuffer 0 0 0 (fun _ => (5 : ℚ)) ix = (fun _ => (5 : ℚ)) ix) :=
  input_replication_reconstructs 2 2 0 (fun _ => (5 : ℚ))
    (by norm_num) (by norm_num)

/-- C9: after engine initialization every per-slot decode-state array has
exactly num_cache_slots elements holding its sentinel zero/neutral init value
(done slots are marked done, sampling parameters at their neutral defaults),
and every KV cache tensor is zero-filled with sequence dimension
input_sequence_len + max_decode_steps, 3-D per layer when num_kv_heads = 1
and 4-D otherwise. -/
theorem engine_init_invariants (numSlots inLen maxSteps numLayers nkv hd : ℕ)
    (consolidate : Bool) :
    ((init_decode_state numSlots inLen maxSteps).per_sample_steps.length = numSlots ∧
     (init_decode_state numSlots inLen maxSteps).temperature.length = numSlots ∧
     (init_decode_state numSlots inLen maxSteps).per_example_max_decode_steps.length = numSlots ∧
     (init_decode_state numSlots inLen maxSteps).per_example_top_p.length = numSlots ∧
     (init_decode_state numSlots inLen maxSteps).per_example_top_k.length = numSlots ∧
     (init_decode_state numSlots inLen maxSteps).done.length = numSlots ∧
     (init_decode_state numSlots inLen maxSteps).has_eos.length = numSlots ∧
     (init_decode_state numSlots inLen maxSteps).decode_lengths.length = numSlots ∧
     (init_decode_state numSlots inLen maxSteps).prefix_lengths.length = numSlots ∧
     (init_decode_state numSlots inLen maxSteps).segment_pos.length = numSlots ∧
     (init_decode_state numSlots inLen maxSteps).output_ids.length = numSlots ∧
     (init_decode_state numSlots inLen maxSteps).logprobs.length = numSlots) ∧
    ((∀ x ∈ (init_decode_state numSlots inLen maxSteps).per_sample_steps, x = (inLen : ℤ)) ∧
     (∀ x ∈ (init_decode_state numSlots inLen maxSteps).temperature, x = 0) ∧
     (∀ x ∈ (init_decode_state numSlots inLen maxSteps).per_example_max_decode_steps, x = (maxSteps : ℤ)) ∧
     (∀ x ∈ (init_decode_state numSlots inLen maxSteps).per_example_top_p, x = 1) ∧
     (∀ x ∈ (init_decode_state numSlots inLen maxSteps).per_example_top_k, x = 1) ∧
     (∀ x ∈ (init_decode_state numSlots inLen maxSteps).done, x = true) ∧
     (∀ x ∈ (init_decode_state numSlots inLen maxSteps).has_eos, x = false) ∧
     (∀ x ∈ (init_decode_state numSlots inLen maxSteps).decode_lengths, x = 0) ∧
     (∀ x ∈ (init_decode_state numSlots inLen maxSteps).prefix_lengths, x = 0) ∧
     (∀ x ∈ (init_decode_state numSlots inLen maxSteps).segment_pos, x = 0) ∧
     (∀ x ∈ (init_decode_state numSlots inLen maxSteps).output_ids, x = 0) ∧
     (∀ x ∈ (init_decode_state numSlots inLen maxSteps).logprobs, x = 0)) ∧
    ((init_decode_cache numLayers numSlots inLen maxSteps nkv hd consolidate).length = numLayers ∧
     ∀ layer ∈ init_decode_cache numLayers numSlots inLen maxSteps nkv hd consolidate,
       ∀ p ∈ layer,
         p.2.shape = kvStateShape numSlots (inLen + maxSteps) nkv hd ∧
         p.2.shape.get? 1 = some (inLen + maxSteps) ∧
         p.2.shape.length = (if nkv = 1 then 3 else 4) ∧
         ∀ q ∈ p.2.data, q = 0) := by
  refine ⟨?_, ?_, ?_, ?_⟩
  · simp [init_decode_state]
  · simp [init_decode_state, List.mem_replicate]
  · simp [init_decode_cache]
  · intro layer hl p hp
    simp only [init_decode_cache, List.mem_map] at hl
    obtain ⟨i, _, rfl⟩ := hl
    have h2 : p.2 = zerosTensor (kvStateShape numSlots (inLen + maxSteps) nkv hd) := by
      cases consolidate with
      | true =>
          simp only [initLayerKvCache, if_true] at hp
          rcases List.mem_cons.mp hp with rfl | hp'
          · rfl
          · rcases List.mem_cons.mp hp' with rfl | hp''
            · rfl
            · simp at hp''
      | false =>
          simp only [initLayerKvCache, Bool.false_eq_true, if_false] at hp
          rcases List.mem_cons.mp hp with rfl | hp'
          · rfl
          · simp at hp'
    rw [h2]
    refine ⟨rfl, ?_, ?_, ?_⟩
    · by_cases h1 : nkv = 1 <;> simp [kvStateShape, zerosTensor, h1]
    · by_cases h1 : nkv = 1 <;> simp [kvStateShape, zerosTensor, h1]
    · intro q hq
      exact List.eq_of_mem_replicate hq

/-- Witness for C9 at num_cache_slots = 4, input_sequence_len = 8,
max_decode_steps = 4, 2 layers, num_kv_heads = 1, head dim 16,
consolidated rope key state. -/
theorem engine_init_invariants_witness :
    (init_decode_state 4 8 4).done.length = 4 ∧
    (∀ x ∈ (init_decode_state 4 8 4).done, x = true) ∧
    (∀ layer ∈ init_decode_cache 2 4 8 4 1 16 true, ∀ p ∈ layer,
      p.2.shape = kvStateShape 4 (8 + 4) 1 16 ∧
      p.2.shape.get? 1 = some (8 + 4) ∧
      p.2.shape.length = (if 1 = 1 then 3 else 4) ∧
      ∀ q ∈ p.2.data, q = 0) := by
  have h := engine_init_invariants 4 8 4 2 1 16 true
  exact ⟨h.1.2.2.2.2.2.1, h.2.1.2.2.2.2.2.1, h.2.2.2⟩

/-- Helper: on a list sorted ascending, find? with the predicate b <= x
returns the least element at least b, and returns none exactly when every
element is below b. -/
theorem find_ge_sorted (sizes : List ℕ) :
    sizes.Sorted (· ≤ ·) → ∀ b : ℕ,
    (∀ m, (sizes.find? fun bs => decide (b ≤ bs)) = some m →
      m ∈ sizes ∧ b ≤ m ∧ ∀ x ∈ sizes, b ≤ x → m ≤ x) ∧
    ((sizes.find? fun bs => decide (b ≤ bs)) = none ↔ ∀ x ∈ sizes, x < b) := by
  induction sizes with
  | nil =>
      intro _ b
      simp
  | cons a rest ih =>
      intro hs b
      rw [List.sorted_cons] at hs
      obtain ⟨ha, hrest⟩ := hs
      have ih' := ih hrest b
      by_cases hba : b ≤ a
      · constructor
        · intro m hm
          rw [List.find?_cons_of_pos _ (by simpa using hba)] at hm
          injection hm with hm'
          subst hm'
          refine ⟨List.mem_cons_self a rest, hba, ?_⟩
          intro x hx _
          rcases List.mem_cons.mp hx with rfl | hx'
          · exact le_refl _
          · exact ha x hx'
        · rw [List.find?_cons_of_pos _ (by simpa using hba)]
          constructor
          · intro hc
            exact absurd hc (by simp)
          · intro hall
            exact absurd hba (not_le.mpr (hall a (List.mem_cons_self a rest)))
      · have hfind : ((a :: rest).find? fun bs => decide (b ≤ bs)) =
            rest.find? fun bs => decide (b ≤ bs) :=
          List.find?_cons_of_neg _ (by simpa using hba)
        constructor
        · intro m hm
          rw [hfind] at hm
          obtain ⟨hmem, hbm, hmin⟩ := ih'.1 m hm
          refine ⟨List.mem_cons_of_mem a hmem, hbm, ?_⟩
          intro x hx hbx
          rcases List.mem_cons.mp hx with rfl | hx'
          · exact absurd hbx hba
          · exact hmin x hx' hbx
        · rw [hfind, ih'.2]
          constructor
          · intro hall x hx
            rcases List.mem_cons.mp hx with rfl | hx'
            · exact not_le.mp hba
            · exact hall x hx'
          · intro hall x hx
            exact hall x (List.mem_cons_of_mem a hx)

/-- C10: get_padded_batch_size over the sorted configured batch sizes returns
the smallest configured size at least the requested size, raises ValueError
exactly when the requested size exceeds every configured size, and compute
therefore always pads a partial batch up to the nearest configured bucket and
never truncates it. -/
theorem get_padded_batch_size_least (l : List ℕ) (b : ℕ) :
    (∀ m, get_padded_batch_size (sortedBatchSizes l) b = Except.ok m →
      m ∈ l ∧ b ≤ m ∧ ∀ x ∈ l, b ≤ x → m ≤ x) ∧
    ((∃ e, get_padded_batch_size (sortedBatchSizes l) b = Except.error e) ↔
      ∀ x ∈ l, x < b) ∧
    (∀ m, computePaddedBatchSize l b = Except.ok m → b ≤ m) := by
  have hsorted : (sortedBatchSizes l).Sorted (· ≤ ·) :=
    List.sorted_insertionSort _ l
  have hperm : List.Perm (sortedBatchSizes l) l := List.perm_insertionSort _ l
  have hmem : ∀ x, x ∈ sortedBatchSizes l ↔ x ∈ l := fun x => hperm.mem_iff
  have hfind := find_ge_sorted (sortedBatchSizes l) hsorted b
  refine ⟨?_, ?_, ?_⟩
  · intro m hm
    unfold get_padded_batch_size at hm
    cases hf : ((sortedBatchSizes l).find? fun bs => decide (b ≤ bs)) with
    | none =>
        rw [hf] at hm
        exact Except.noConfusion hm
    | some bs =>
        rw [hf] at hm
        injection hm with hm'
        subst hm'
        obtain ⟨hmem2, hb, hmin⟩ := hfind.1 bs hf
        exact ⟨(hmem bs).mp hmem2, hb, fun x hx hbx => hmin x ((hmem x).mpr hx) hbx⟩
  · constructor
    · rintro ⟨e, he⟩
      unfold get_padded_batch_size at he
      cases hf : ((sortedBatchSizes l).find? fun bs => decide (b ≤ bs)) with
      | some bs =>
          rw [hf] at he
          exact Except.noConfusion he
      | none =>
          intro x hx
          exact (hfind.2.mp hf) x ((hmem x).mpr hx)
    · intro hall
      have hf : ((sortedBatchSizes l).find? fun bs => decide (b ≤ bs)) = none :=
        hfind.2.mpr fun x hx => hall x ((hmem x).mp hx)
      refine ⟨"Batch size larger than maximum", ?_⟩
      unfold get_padded_batch_size
      rw [hf]
  · intro m hm
    unfold computePaddedBatchSize at hm
    dsimp only at hm
    split at hm
    · exact Except.noConfusion hm
    · unfold get_padded_batch_size at hm
      cases hf : ((sortedBatchSizes l).find? fun bs => decide (b ≤ bs)) with
      | none =>
          rw [hf] at hm
          exact Except.noConfusion hm
      | some bs =>
          rw [hf] at hm
          injection hm with hm'
          subst hm'
          exact (hfind.1 bs hf).2.1

/-- Witness for C10 on the configured sizes [4, 1, 8]: a batch of 3 pads to
the bucket of 4, and a batch of 10 exceeds every configured size. -/
theorem get_padded_batch_size_least_witness :
    ((4 ∈ [4, 1, 8] ∧ 3 ≤ 4 ∧ ∀ x ∈ [4, 1, 8], 3 ≤ x → 4 ≤ x)) ∧
    ((∃ e, get_padded_batch_size (sortedBatchSizes [4, 1, 8]) 10 =
        Except.error e) ↔ ∀ x ∈ [4, 1, 8], x < 10) ∧
    3 ≤ 4 :=
  ⟨(get_padded_batch_size_least [4, 1, 8] 3).1 4 rfl,
   (get_padded_batch_size_least [4, 1, 8] 10).2.1,
   (get_padded_batch_size_least [4, 1, 8] 3).2.2 4 rfl⟩
